import Mathlib

/-!
Verification development for a small file-conversion web service
(image/PDF conversion, PNG/JPEG/PDF compression, unit conversion,
and a token-keyed download table).

The embedding translates the service's core logic into executable Lean
definitions.  External codecs (PIL encoders/decoders, pdfium rendering)
are modelled as abstract operation records (`PILOps`); all arithmetic,
string handling, candidate selection and control flow is translated
directly from the source.  Python float values are modelled by their
exact rational values, represented as an explicit numerator/denominator
pair (`Frac`) so that every computation is kernel-executable; `Frac.val`
maps a pair to the rational number it denotes.
-/

/-- Lowercase a single ASCII character, as Python `str.lower` does on ASCII input. -/
def asciiLowerChar (c : Char) : Char :=
  if 'A' ≤ c ∧ c ≤ 'Z' then Char.ofNat (c.toNat + 32) else c

/-- Lowercase an ASCII string, modelling Python `str.lower` on ASCII input. -/
def asciiLower (s : String) : String :=
  String.mk (s.data.map asciiLowerChar)

/-- ASCII whitespace test, modelling the characters Python `str.strip` removes. -/
def isAsciiSpace (c : Char) : Bool :=
  c == ' ' || c == '\t' || c == '\n' || c == '\r' || c == '\x0b' || c == '\x0c'

/-- Strip leading and trailing whitespace, modelling Python `str.strip()`. -/
def stripWs (s : String) : String :=
  String.mk (((s.data.dropWhile isAsciiSpace).reverse.dropWhile isAsciiSpace).reverse)

/-- Remove all trailing occurrences of `c`, modelling Python `str.rstrip(c)`. -/
def rstripChar (c : Char) (s : String) : String :=
  String.mk ((s.data.reverse.dropWhile (fun x => x == c)).reverse)

/-- Left-pad a string with zeros to width `w`, as Python `format(n, "0Nd")` does. -/
def padLeftZeros (w : Nat) (s : String) : String :=
  String.mk (List.replicate (w - s.length) '0') ++ s

/-- Split a character list on a separator character. -/
def splitOnChar (sep : Char) : List Char → List (List Char)
  | [] => [[]]
  | x :: xs =>
    let r := splitOnChar sep xs
    if x = sep then [] :: r
    else
      match r with
      | [] => [[x]]
      | h :: t => (x :: h) :: t

/-- Final path component of a name, modelling `pathlib.PurePath(s).name`
(split on the separator, drop empty and "." components, take the last). -/
def pathNameChars (s : String) : List Char :=
  (((splitOnChar '/' s.data).filter (fun p => decide (p ≠ [] ∧ p ≠ ['.']))).getLast?).getD []

/-- Index of the last '.' in a character list, if any. -/
def lastDotIdx (l : List Char) : Option Nat :=
  match l.reverse.findIdx? (fun c => c == '.') with
  | none => none
  | some j => some (l.length - 1 - j)

/-- Extension of a filename, modelling `pathlib.PurePath(s).suffix`:
the part of the final component from its last dot onward, provided that
dot is neither the first nor the last character of the component. -/
def pathSuffix (s : String) : String :=
  let nm := pathNameChars s
  match lastDotIdx nm with
  | none => ""
  | some i => if 0 < i ∧ i < nm.length - 1 then String.mk (nm.drop i) else ""

/-- Stem of a filename, modelling `pathlib.PurePath(s).stem`: the final
component with its suffix (as in `pathSuffix`) removed. -/
def pathStem (s : String) : String :=
  let nm := pathNameChars s
  match lastDotIdx nm with
  | none => String.mk nm
  | some i => if 0 < i ∧ i < nm.length - 1 then String.mk (nm.take i) else String.mk nm

/-- Exact rational value of a Python float, kept as an explicit (and possibly
unnormalized) numerator/denominator pair so that all operations on it are
kernel-executable.  The denominator is intended to be nonzero. -/
structure Frac where
  num : Int
  den : Int
deriving DecidableEq, Repr

/-- Multiplication of exact values. -/
def Frac.mul (a b : Frac) : Frac := ⟨a.num * b.num, a.den * b.den⟩

/-- Division of exact values. -/
def Frac.div (a b : Frac) : Frac := ⟨a.num * b.den, a.den * b.num⟩

/-- Addition of exact values. -/
def Frac.add (a b : Frac) : Frac := ⟨a.num * b.den + b.num * a.den, a.den * b.den⟩

/-- The rational number denoted by a pair. -/
def Frac.val (a : Frac) : ℚ := (a.num : ℚ) / (a.den : ℚ)

/-- Number of decimal digits of a natural number (1 for 0). -/
def decDigitCount (n : Nat) : Nat := (Nat.repr n).length

/-- Round `n / d` (with `d > 0`) to the nearest integer, ties to even —
the rounding Python uses when formatting a float to a fixed number of digits. -/
def roundHalfEvenNd (n d : Nat) : Nat :=
  let q := n / d
  let r := n % d
  if 2 * r < d then q
  else if d < 2 * r then q + 1
  else if q % 2 = 0 then q else q + 1

/-- Fixed-point rendering with 8 fractional digits of the value
`(-1)^sign * n / d`, modelling Python `f"{value:.8f}"`. -/
def fixed8 (sign : Bool) (n d : Nat) : String :=
  let m := roundHalfEvenNd (n * 100000000) d
  (if sign then "-" else "") ++ Nat.repr (m / 100000000) ++ "." ++
    padLeftZeros 8 (Nat.repr (m % 100000000))

/-- Strip trailing zeros and then a trailing dot, modelling
Python `.rstrip("0").rstrip(".")`. -/
def stripTrailing (s : String) : String := rstripChar '.' (rstripChar '0' s)

/-- Decide whether `n / d < 10 ^ e` for naturals `n, d ≥ 1` and integer `e`. -/
def ltPow10 (n d : Nat) (e : Int) : Bool :=
  if 0 ≤ e then decide (n < d * 10 ^ e.toNat) else decide (n * 10 ^ (-e).toNat < d)

/-- Floor of the base-10 logarithm of `n / d` for `n, d ≥ 1`: a digit-count
first guess, corrected by exact comparisons. -/
def sciExponent (n d : Nat) : Int :=
  let e0 : Int := (decDigitCount n : Int) - (decDigitCount d : Int)
  if ltPow10 n d e0 then e0 - 1 else if ltPow10 n d (e0 + 1) then e0 else e0 + 1

/-- Normalized scientific rendering with 8 fractional digits of
`(-1)^sign * n / d`, modelling Python `f"{value:.8e}"`. -/
def sci8 (sign : Bool) (n d : Nat) : String :=
  let e := sciExponent n d
  let m0 := if 0 ≤ 8 - e then roundHalfEvenNd (n * 10 ^ (8 - e).toNat) d
            else roundHalfEvenNd n (d * 10 ^ (e - 8).toNat)
  let m := if m0 = 1000000000 then 100000000 else m0
  let e2 := if m0 = 1000000000 then e + 1 else e
  let estr := (if e2 < 0 then "-" else "+") ++
    (if e2.natAbs < 10 then "0" ++ Nat.repr e2.natAbs else Nat.repr e2.natAbs)
  (if sign then "-" else "") ++ Nat.repr (m / 100000000) ++ "." ++
    padLeftZeros 8 (Nat.repr (m % 100000000)) ++ "e" ++ estr

/-- Number formatter of the unit converter (`_format_number` in the source):
exact zero renders as "0"; magnitudes at least 1e6 or below 1e-4 render in
scientific notation with 8 fractional digits; otherwise fixed-point with 8
fractional digits, trailing zeros and a trailing dot stripped.  The branch
tests are the exact integer forms of `abs(value) >= 1e6` and
`abs(value) < 1e-4` on the value `n / d`. -/
def format_number (x : Frac) : String :=
  let n : Int := if x.den < 0 then -x.num else x.num
  let d : Nat := x.den.natAbs
  if n = 0 then "0"
  else
    let na := n.natAbs
    if 1000000 * d ≤ na ∨ 10000 * na < d then sci8 (decide (n < 0)) na d
    else stripTrailing (fixed8 (decide (n < 0)) na d)

/-- A unit definition: display name, symbol, and linear factor to the
category's base unit. -/
abbrev UnitDef := String × String × Frac

/-- Units of the "powers_of_ten" category, with the factors of the source table. -/
def powers_of_ten_units : List UnitDef :=
  [("atto", "a", ⟨1, 1000000000000000000⟩),
   ("femto", "f", ⟨1, 1000000000000000⟩),
   ("pico", "p", ⟨1, 1000000000000⟩),
   ("nano", "n", ⟨1, 1000000000⟩),
   ("micro", "u", ⟨1, 1000000⟩),
   ("milli", "m", ⟨1, 1000⟩),
   ("base", "base", ⟨1, 1⟩),
   ("kilo", "k", ⟨1000, 1⟩),
   ("mega", "M", ⟨1000000, 1⟩),
   ("giga", "G", ⟨1000000000, 1⟩),
   ("tera", "T", ⟨1000000000000, 1⟩),
   ("peta", "P", ⟨1000000000000000, 1⟩),
   ("exa", "E", ⟨1000000000000000000, 1⟩)]

/-- Units of the "length" category. -/
def length_units : List UnitDef :=
  [("nanometer", "nm", ⟨1, 1000000000⟩),
   ("micrometer", "um", ⟨1, 1000000⟩),
   ("millimeter", "mm", ⟨1, 1000⟩),
   ("meter", "m", ⟨1, 1⟩),
   ("kilometer", "km", ⟨1000, 1⟩)]

/-- Units of the "time" category. -/
def time_units : List UnitDef :=
  [("nanosecond", "ns", ⟨1, 1000000000⟩),
   ("microsecond", "us", ⟨1, 1000000⟩),
   ("millisecond", "ms", ⟨1, 1000⟩),
   ("second", "s", ⟨1, 1⟩),
   ("minute", "min", ⟨60, 1⟩),
   ("hour", "h", ⟨3600, 1⟩)]

/-- Units of the "weight" category. -/
def weight_units : List UnitDef :=
  [("nanogram", "ng", ⟨1, 1000000000⟩),
   ("microgram", "ug", ⟨1, 1000000⟩),
   ("milligram", "mg", ⟨1, 1000⟩),
   ("gram", "g", ⟨1, 1⟩),
   ("kilogram", "kg", ⟨1000, 1⟩),
   ("ton", "t", ⟨1000000, 1⟩)]

/-- Units of the "bit_byte" category. -/
def bit_byte_units : List UnitDef :=
  [("bit", "b", ⟨1, 1⟩),
   ("byte", "B", ⟨8, 1⟩),
   ("kibibit", "Kib", ⟨1024, 1⟩),
   ("kibibyte", "KiB", ⟨8 * 1024, 1⟩),
   ("mebibit", "Mib", ⟨1024 * 1024, 1⟩),
   ("mebibyte", "MiB", ⟨8 * 1024 * 1024, 1⟩),
   ("gibibit", "Gib", ⟨1024 * 1024 * 1024, 1⟩),
   ("gibibyte", "GiB", ⟨8 * 1024 * 1024 * 1024, 1⟩),
   ("tebibit", "Tib", ⟨1024 * 1024 * 1024 * 1024, 1⟩),
   ("tebibyte", "TiB", ⟨8 * 1024 * 1024 * 1024 * 1024, 1⟩)]

/-- The category table of the source (`UNIT_DEFINITIONS`). -/
def UNIT_DEFINITIONS : List (String × List UnitDef) :=
  [("powers_of_ten", powers_of_ten_units),
   ("length", length_units),
   ("time", time_units),
   ("weight", weight_units),
   ("bit_byte", bit_byte_units)]

/-- Lookup in an association list with string keys, modelling Python `dict.get`
on a dict literal (keys are unique, so first match suffices). -/
def dictGet {α : Type} : List (String × α) → String → Option α
  | [], _ => none
  | (k, v) :: rest, key => if k = key then some v else dictGet rest key

/-- Lookup of a unit symbol, modelling the dict comprehension
`{symbol: (name, factor) for name, symbol, factor in units}` followed by
`.get(unit)`: a later entry with the same symbol overwrites an earlier one. -/
def symLookup (us : List UnitDef) (sym : String) : Option (String × Frac) :=
  us.foldl (fun acc u => if u.2.1 = sym then some (u.1, u.2.2) else acc) none

/-- Outcome of a unit-conversion request. -/
inductive UnitConvertResult where
  | unknownCategory
  | unknownUnit
  | ok (rows : List (String × String × String))
deriving DecidableEq, Repr

/-- Core of the `unit_convert` handler, after input normalization: category
lookup, unit lookup, then one output row per unit of the category in declared
order, each carrying the formatted value `base / factor` with
`base = value * inputFactor`. -/
def unit_convert_core (category unit : String) (value : Frac) : UnitConvertResult :=
  match dictGet UNIT_DEFINITIONS category with
  | none => .unknownCategory
  | some units =>
    if units.isEmpty then .unknownCategory
    else
      match symLookup units unit with
      | none => .unknownUnit
      | some sel =>
        let base := value.mul sel.2
        .ok (units.map (fun u => (u.1, u.2.1, format_number (base.div u.2.2))))

/-- The `unit_convert` handler: the category name is lowercased and stripped,
the unit symbol is only stripped, then the core conversion runs. -/
def unit_convert (category unit : String) (value : Frac) : UnitConvertResult :=
  unit_convert_core (stripWs (asciiLower category)) (stripWs unit) value

/-- An entry of the download table: suggested filename, payload bytes, MIME type. -/
abbrev DownloadEntry := String × List Nat × String

/-- The download table (`DOWNLOAD_CACHE`), newest binding first; a new binding
for an existing token shadows the old one, as Python dict assignment does. -/
abbrev DownloadTable := List (String × DownloadEntry)

/-- Outcome of a download request. -/
inductive DownloadResult where
  | notFound
  | found (filename : String) (content : List Nat) (mediaType : String)
deriving DecidableEq, Repr

/-- Store an entry under a token, modelling `DOWNLOAD_CACHE[token] = entry`. -/
def cacheStore (token : String) (e : DownloadEntry) (tbl : DownloadTable) : DownloadTable :=
  (token, e) :: tbl

/-- Lookup a token, modelling `DOWNLOAD_CACHE.get(token)`. -/
def cacheGet : DownloadTable → String → Option DownloadEntry
  | [], _ => none
  | (k, v) :: rest, token => if k = token then some v else cacheGet rest token

/-- The `download` handler: look the token up and serve the stored triple, or a
not-found response.  The handler only reads the table, so the table component
of the result is returned unchanged. -/
def download (tbl : DownloadTable) (token : String) : DownloadResult × DownloadTable :=
  (match cacheGet tbl token with
   | none => .notFound
   | some e => .found e.1 e.2.1 e.2.2,
   tbl)

/-- PIL color mode of a decoded raster image (the modes the source branches on,
with a catch-all for every other mode). -/
inductive Mode where
  | L
  | LA
  | P
  | RGB
  | RGBA
  | other
deriving DecidableEq, Repr

/-- Quantization methods of PIL that the source selects between. -/
inductive QMethod where
  | MEDIANCUT
  | FASTOCTREE
deriving DecidableEq, Repr

/-- Dithering settings of PIL quantization. -/
inductive Dither where
  | NONE
  | FLOYDSTEINBERG
deriving DecidableEq, Repr

/-- Whether `"A" in img.getbands()` holds for an image of this mode. -/
def Mode.hasAlphaBand : Mode → Bool
  | .RGBA => true
  | .LA => true
  | _ => false

/-- Abstract record of the external image/PDF codec operations (PIL and
pdfium).  Pixel-level behavior is opaque; only the facts the source relies on
are recorded: `convertMode` produces an image of the requested mode. -/
structure PILOps (Img : Type) where
  mode : Img → Mode
  convertMode : Img → Mode → Img
  quantize : Img → Nat → QMethod → Dither → Img
  savePng : Img → List Nat
  encodeJpeg : Img → Nat → List Nat
  flattenWhite : Img → Img
  decode : List Nat → Option Img
  renderPdf : List Nat → Frac → Option (List Img)
  encodePdfMulti : List Img → Nat → List Nat
  encodePdfSingle : Img → List Nat
  mode_convertMode : ∀ i m, mode (convertMode i m) = m

variable {Img : Type} (ops : PILOps Img)

/-- The `_as_rgb_without_alpha` normalizer: RGBA/LA images are composited onto
white, indexed images are expanded, any other non-RGB mode is converted to RGB,
and RGB images pass through. -/
def as_rgb_without_alpha (img : Img) : Img :=
  match ops.mode img with
  | .RGBA => ops.flattenWhite img
  | .LA => ops.flattenWhite img
  | .P => ops.convertMode img .RGB
  | .RGB => img
  | _ => ops.convertMode img .RGB

/-- The `_save_png_bytes` helper: PNG encode with maximum compression effort. -/
def save_png_bytes (img : Img) : List Nat := ops.savePng img

/-- Palette budget of `_compress_png`: `int(32 + ((quality - 20) / 75) * 224)`
clamped to `[32, 256]`.  For quality in `[20, 95]` the float computation of the
source truncates to exactly this integer value. -/
def base_colors (quality : Nat) : Nat :=
  max 32 (min 256 (32 + (quality - 20) * 224 / 75))

/-- Insert into a strictly descending list, keeping it sorted and duplicate-free. -/
def insertDescDedup (x : Nat) : List Nat → List Nat
  | [] => [x]
  | y :: ys => if y < x then x :: y :: ys else if x = y then y :: ys else y :: insertDescDedup x ys

/-- Deduplicate and sort in descending order, modelling
`sorted(set(...), reverse=True)`. -/
def sortDescDedup (l : List Nat) : List Nat := l.foldr insertDescDedup []

/-- Candidate palette sizes of `_compress_png`:
`sorted({base, max(16, base // 2), max(16, base // 4)}, reverse=True)`. -/
def palette_sizes (quality : Nat) : List Nat :=
  let b := base_colors quality
  sortDescDedup [b, max 16 (b / 2), max 16 (b / 4)]

/-- Working image of the quantization loop in `_compress_png`: the input if its
mode is RGB or RGBA, otherwise its RGBA conversion. -/
def png_work (img : Img) : Img :=
  if ops.mode img = .RGB ∨ ops.mode img = .RGBA then img else ops.convertMode img .RGBA

/-- One quantization candidate of `_compress_png` at a given palette size:
FASTOCTREE with no dithering when the working image has an alpha band,
otherwise MEDIANCUT with no dithering on the RGB conversion. -/
def png_candidate (img : Img) (colors : Nat) : List Nat :=
  let work := png_work ops img
  if (ops.mode work).hasAlphaBand then
    save_png_bytes ops (ops.quantize work colors .FASTOCTREE .NONE)
  else
    save_png_bytes ops (ops.quantize (ops.convertMode work .RGB) colors .MEDIANCUT .NONE)

/-- First-wins minimum by byte length, modelling `min(candidates, key=len)`
where `candidates = first :: rest`. -/
def minByLen (first : List Nat) (rest : List (List Nat)) : List Nat :=
  rest.foldl (fun best c => if c.length < best.length then c else best) first

/-- The `_compress_png` search: a lossless re-encode plus one quantized
candidate per palette size; the shortest candidate wins. -/
def compress_png (img : Img) (quality : Nat) : List Nat :=
  minByLen (save_png_bytes ops img) ((palette_sizes quality).map (png_candidate ops img))

/-- The `_encode_image` encoder: PNG (lossless, maximum effort) or JPEG
(alpha flattened first, quality 85); any other target raises, modelled as
`none`.  The result carries (bytes, extension, MIME type, label). -/
def encode_image (img : Img) (output : String) :
    Option (List Nat × String × String × String) :=
  if output = "png" then some (save_png_bytes ops img, "png", "image/png", "PNG")
  else if output = "jpg" then
    some (ops.encodeJpeg (as_rgb_without_alpha ops img) 85, "jpg", "image/jpeg", "JPG")
  else none

/-- The `_encode_pdf` encoder: flatten alpha, wrap as a single-page PDF. -/
def encode_pdf (img : Img) : List Nat × String × String × String :=
  (ops.encodePdfSingle (as_rgb_without_alpha ops img), "pdf", "application/pdf", "PDF")

/-- The `_render_pdf_pages` renderer: open and rasterize every page at the
given scale; a document that fails to parse or has no pages raises, modelled
as `none`. -/
def render_pdf_pages (source_bytes : List Nat) (scale : Frac) : Option (List Img) :=
  match ops.renderPdf source_bytes scale with
  | none => none
  | some pages => if pages.length < 1 then none else some pages

/-- The `_encode_pdf_pages` re-assembler: flatten every page, then emit one
multi-page PDF at the given quality; an empty page list raises. -/
def encode_pdf_pages (pages : List Img) (quality : Nat) : Option (List Nat) :=
  if pages.isEmpty then none
  else some (ops.encodePdfMulti (pages.map (as_rgb_without_alpha ops)) quality)

/-- Allow-list of filename suffixes accepted by `/compress`. -/
def SUPPORTED_COMPRESSION_SUFFIXES : List String :=
  [".heic", ".heif", ".png", ".jpg", ".jpeg", ".pdf"]

/-- Allow-list of content types accepted by `/compress`. -/
def SUPPORTED_COMPRESSION_CONTENT_TYPES : List String :=
  ["image/heic", "image/heif", "image/png", "image/jpeg", "application/pdf"]

/-- Effective source name, modelling `file.filename or fallback`. -/
def sourceNameOr (filename fallback : String) : String :=
  if filename = "" then fallback else filename

/-- PDF test shared by both handlers: lowercased suffix equals ".pdf" or
lowercased content type equals "application/pdf". -/
def pdfClass (suffix ctLower : String) : Bool :=
  suffix == ".pdf" || ctLower == "application/pdf"

/-- Source classification of the `/convert` handler: lowercased filename
suffix ".pdf" or lowercased declared content type "application/pdf". -/
def is_pdf_source (filename : String) (contentType : Option String) : Bool :=
  pdfClass (asciiLower (pathSuffix (sourceNameOr filename "converted")))
    (asciiLower (contentType.getD ""))

/-- Payload of a conversion result: a single file or a deflate-compressed
ZIP archive given by its entry list in order. -/
inductive ArtifactData where
  | file (bytes : List Nat)
  | zipDeflated (entries : List (String × List Nat))
deriving DecidableEq, Repr

/-- Outcome of a `/convert` request. -/
inductive ConvertResult where
  | pdfToPdfRejected
  | failed
  | ok (filename : String) (data : ArtifactData) (mediaType : String) (label : String)
deriving DecidableEq, Repr

/-- The `/convert` handler.  A PDF source with target "pdf" is rejected;
a PDF source otherwise renders at scale 2 and either returns the single
encoded page directly or packs the per-page encodings into a deflate ZIP with
entries `<stem>_page_<index padded to 3 digits>.<ext>` in page order; a raster
source decodes and encodes to the target.  Any exception yields `failed`. -/
def convert (filename : String) (contentType : Option String) (output : String)
    (source_bytes : List Nat) : ConvertResult :=
  let source_name := sourceNameOr filename "converted"
  let stem := pathStem source_name
  if is_pdf_source filename contentType then
    if output = "pdf" then .pdfToPdfRejected
    else
      match render_pdf_pages ops source_bytes ⟨2, 1⟩ with
      | none => .failed
      | some pages =>
        match pages with
        | [pg] =>
          match encode_image ops pg output with
          | none => .failed
          | some art => .ok (stem ++ "." ++ art.2.1) (.file art.1) art.2.2.1 art.2.2.2
        | ps =>
          match (ps.enumFrom 1).mapM (fun ip =>
              (encode_image ops ip.2 output).map (fun art =>
                (stem ++ "_page_" ++ padLeftZeros 3 (Nat.repr ip.1) ++ "." ++ art.2.1,
                 art.1))) with
          | none => .failed
          | some entries =>
            .ok (stem ++ "_" ++ output ++ "_pages.zip") (.zipDeflated entries)
              "application/zip" "ZIP"
  else
    match ops.decode source_bytes with
    | none => .failed
    | some img =>
      if output = "pdf" then
        let art := encode_pdf ops img
        .ok (stem ++ "." ++ art.2.1) (.file art.1) art.2.2.1 art.2.2.2
      else
        match encode_image ops img output with
        | none => .failed
        | some art => .ok (stem ++ "." ++ art.2.1) (.file art.1) art.2.2.1 art.2.2.2

/-- Outcome of a `/compress` request. -/
inductive CompressResult where
  | unsupported
  | failed
  | ok (filename : String) (outBytes : List Nat) (mediaType : String) (label : String)
deriving DecidableEq, Repr

/-- Body of the `/compress` handler for an already clamped quality `q`:
allow-list check on lowercased suffix and content type, then the PDF path
(render at scale `0.9 + ((q - 20) / 75) * 1.1`, re-assemble at quality `q`),
the PNG path (`_compress_png`), or the JPEG path (flatten, encode at `q`). -/
def compress_core (filename : String) (contentType : Option String) (q : Int)
    (source_bytes : List Nat) : CompressResult :=
  let source_name := sourceNameOr filename "compressed"
  let suffix := asciiLower (pathSuffix source_name)
  let content_type := asciiLower (contentType.getD "")
  let stem := pathStem source_name
  if suffix ∉ SUPPORTED_COMPRESSION_SUFFIXES ∧
      content_type ∉ SUPPORTED_COMPRESSION_CONTENT_TYPES then
    .unsupported
  else if pdfClass suffix content_type then
    let scale := Frac.add ⟨9, 10⟩ ((Frac.div ⟨q - 20, 1⟩ ⟨75, 1⟩).mul ⟨11, 10⟩)
    match render_pdf_pages ops source_bytes scale with
    | none => .failed
    | some pages =>
      match encode_pdf_pages ops pages q.toNat with
      | none => .failed
      | some out => .ok (stem ++ "_compressed.pdf") out "application/pdf" "PDF"
  else
    match ops.decode source_bytes with
    | none => .failed
    | some img =>
      if suffix == ".png" || content_type == "image/png" then
        .ok (stem ++ "_compressed.png") (compress_png ops img q.toNat) "image/png" "PNG"
      else
        .ok (stem ++ "_compressed.jpg")
          (ops.encodeJpeg (as_rgb_without_alpha ops img) q.toNat) "image/jpeg" "JPG"

/-- The `/compress` handler: the quality form field is clamped to `[20, 95]`
first, then the body runs. -/
def compress (filename : String) (contentType : Option String) (quality : Int)
    (source_bytes : List Nat) : CompressResult :=
  compress_core ops filename contentType (max 20 (min 95 quality)) source_bytes

/-- Claim-literal variant of `_compress_png`, modelled from the spec's words:
the quantization method is FASTOCTREE exactly when the input image has an
alpha channel, MEDIANCUT otherwise.  (The source instead tests the working
image after a possible RGBA conversion.) -/
def compress_png_claimed (img : Img) (quality : Nat) : List Nat :=
  minByLen (save_png_bytes ops img)
    ((palette_sizes quality).map (fun colors =>
      let work := png_work ops img
      if (ops.mode img).hasAlphaBand then
        save_png_bytes ops (ops.quantize work colors .FASTOCTREE .NONE)
      else
        save_png_bytes ops (ops.quantize (ops.convertMode work .RGB) colors .MEDIANCUT .NONE)))

/-- Byte payload produced by `_encode_image` for the two raster targets. -/
def rasterBytes (img : Img) (output : String) : List Nat :=
  if output = "png" then save_png_bytes ops img
  else ops.encodeJpeg (as_rgb_without_alpha ops img) 85

/-- File extension produced by `_encode_image` for the two raster targets. -/
def rasterExt (output : String) : String := if output = "png" then "png" else "jpg"

/-- MIME type produced by `_encode_image` for the two raster targets. -/
def rasterMime (output : String) : String :=
  if output = "png" then "image/png" else "image/jpeg"

/-- Human label produced by `_encode_image` for the two raster targets. -/
def rasterLabel (output : String) : String := if output = "png" then "PNG" else "JPG"

/-- Concrete toy image type for evaluating the abstract operations: a color
mode together with a size tag that determines encoded lengths. -/
abbrev SImg := Mode × Nat

/-- Concrete instantiation of the codec operations on `SImg`, used to evaluate
the handlers on explicit inputs: quantization with FASTOCTREE yields a
1-byte encoding and with MEDIANCUT a 2-byte encoding, the lossless re-encode
of an image with size tag `t` has `t` bytes, and every PDF renders to three
RGB pages. -/
def simpleOps : PILOps SImg where
  mode i := i.1
  convertMode i m := (m, i.2)
  quantize i _colors meth _dither := (i.1, if meth = QMethod.FASTOCTREE then 1 else 2)
  savePng i := List.replicate i.2 7
  encodeJpeg i q := List.replicate (i.2 + q) 1
  flattenWhite i := (Mode.RGB, i.2)
  decode bs := some (Mode.RGB, bs.length + 3)
  renderPdf _bs _scale := some [(Mode.RGB, 1), (Mode.RGB, 2), (Mode.RGB, 3)]
  encodePdfMulti pages q := List.replicate (pages.length + q) 2
  encodePdfSingle i := List.replicate i.2 4
  mode_convertMode := fun _ _ => rfl

/-- The first-wins minimum of `first :: rest` is one of `first :: rest`. -/
theorem minByLen_eq_or_mem (first : List Nat) (rest : List (List Nat)) :
    minByLen first rest = first ∨ minByLen first rest ∈ rest := by
  induction rest generalizing first with
  | nil => exact Or.inl rfl
  | cons b bs ih =>
    have hstep : minByLen first (b :: bs) =
        minByLen (if b.length < first.length then b else first) bs := rfl
    rw [hstep]
    rcases ih (if b.length < first.length then b else first) with h | h
    · rw [h]
      split
      · exact Or.inr (List.mem_cons_self _ _)
      · exact Or.inl rfl
    · exact Or.inr (List.mem_cons_of_mem _ h)

/-- The first-wins minimum of `first :: rest` is at most as long as any of them. -/
theorem minByLen_le (first : List Nat) (rest : List (List Nat)) :
    ∀ c, (c = first ∨ c ∈ rest) → (minByLen first rest).length ≤ c.length := by
  induction rest generalizing first with
  | nil =>
    intro c hc
    rcases hc with h | h
    · subst h; exact Nat.le.refl
    · cases h
  | cons b bs ih =>
    intro c hc
    have hstep : minByLen first (b :: bs) =
        minByLen (if b.length < first.length then b else first) bs := rfl
    have hbase := ih (if b.length < first.length then b else first) _ (Or.inl rfl)
    rcases hc with h | h
    · rw [h, hstep]
      refine le_trans hbase ?_
      split <;> omega
    · rcases List.mem_cons.mp h with h1 | h1
      · rw [h1, hstep]
        refine le_trans hbase ?_
        split <;> omega
      · rw [hstep]
        exact ih _ c (Or.inr h1)

/-- If a function returns `some (f a)` on every element, `mapM` returns the map. -/
theorem mapM_eq_some_map {α β : Type} (g : α → Option β) (f : α → β) :
    ∀ l : List α, (∀ a ∈ l, g a = some (f a)) → l.mapM g = some (l.map f) := by
  intro l
  induction l with
  | nil => intro _; rfl
  | cons a as ih =>
    intro h
    rw [List.mapM_cons, h a (List.mem_cons_self _ _),
      ih (fun x hx => h x (List.mem_cons_of_mem _ hx))]
    rfl

/-- A successful `dictGet` returns the value of some stored pair. -/
theorem dictGet_mem {α : Type} :
    ∀ (l : List (String × α)) (k : String) (v : α),
      dictGet l k = some v → ∃ p ∈ l, p.2 = v := by
  intro l
  induction l with
  | nil => intro k v h; cases h
  | cons p rest ih =>
    intro k v h
    obtain ⟨k', v'⟩ := p
    by_cases hk : k' = k
    · refine ⟨(k', v'), List.mem_cons_self _ _, ?_⟩
      simp only [dictGet, if_pos hk] at h
      exact Option.some_inj.mp h
    · simp only [dictGet, if_neg hk] at h
      obtain ⟨q, hq, hqv⟩ := ih k v h
      exact ⟨q, List.mem_cons_of_mem _ hq, hqv⟩

/-- A successful symbol lookup returns the factor of some unit of the list. -/
theorem symLookup_factor :
    ∀ (us : List UnitDef) (sym nm : String) (f : Frac),
      symLookup us sym = some (nm, f) → ∃ t ∈ us, t.2.2 = f := by
  have aux : ∀ (sym : String) (us : List UnitDef) (acc : Option (String × Frac))
      (r : String × Frac),
      us.foldl (fun acc u => if u.2.1 = sym then some (u.1, u.2.2) else acc) acc = some r →
      acc = some r ∨ ∃ t ∈ us, r = (t.1, t.2.2) := by
    intro sym us
    induction us with
    | nil => intro acc r h; exact Or.inl h
    | cons u rest ih =>
      intro acc r h
      rw [List.foldl_cons] at h
      rcases ih _ r h with h1 | h1
      · by_cases hu : u.2.1 = sym
        · rw [if_pos hu] at h1
          exact Or.inr ⟨u, List.mem_cons_self _ _, (Option.some_inj.mp h1).symm⟩
        · rw [if_neg hu] at h1
          exact Or.inl h1
      · obtain ⟨t, ht, htr⟩ := h1
        exact Or.inr ⟨t, List.mem_cons_of_mem _ ht, htr⟩
  intro us sym nm f h
  rcases aux sym us none (nm, f) h with h1 | h1
  · cases h1
  · obtain ⟨t, ht, htr⟩ := h1
    exact ⟨t, ht, (congrArg Prod.snd htr).symm⟩

/-- Every factor of the unit table has nonzero numerator and denominator. -/
theorem unit_factors_nonzero :
    ∀ p ∈ UNIT_DEFINITIONS, ∀ t ∈ p.2, t.2.2.num ≠ 0 ∧ t.2.2.den ≠ 0 := by decide

/-- A token misses the table exactly when it was never stored. -/
theorem cacheGet_eq_none_iff (tbl : DownloadTable) (t : String) :
    cacheGet tbl t = none ↔ ∀ e : DownloadEntry, (t, e) ∉ tbl := by
  induction tbl with
  | nil => simp [cacheGet]
  | cons p rest ih =>
    obtain ⟨k, v⟩ := p
    by_cases hk : k = t
    · subst hk
      simp only [cacheGet, if_pos rfl]
      constructor
      · intro h; cases h
      · intro h
        exact absurd (List.mem_cons_self _ _) (h v)
    · simp only [cacheGet, if_neg hk, ih]
      constructor
      · intro h e hmem
        rcases List.mem_cons.mp hmem with h1 | h1
        · exact hk (congrArg Prod.fst h1).symm
        · exact h e h1
      · intro h e hmem
        exact h e (List.mem_cons_of_mem _ hmem)

/-- For a raster target, `_encode_image` succeeds with the corresponding
bytes, extension, MIME type and label. -/
theorem encode_image_raster {Img2 : Type} (ops2 : PILOps Img2) (img : Img2)
    (output : String) (h : output = "png" ∨ output = "jpg") :
    encode_image ops2 img output =
      some (rasterBytes ops2 img output, rasterExt output,
        rasterMime output, rasterLabel output) := by
  rcases h with h | h <;> subst h <;> rfl

/-- Palette-size facts of `_compress_png` for every quality in range: the
candidate list is strictly descending and consists exactly of the three
budgets of the source formula. -/
theorem palette_sizes_facts :
    ∀ q : Nat, q < 96 → 20 ≤ q →
      (palette_sizes q).Pairwise (· > ·) ∧
      (∀ n ∈ palette_sizes q,
        n = base_colors q ∨ n = max 16 (base_colors q / 2) ∨ n = max 16 (base_colors q / 4)) ∧
      base_colors q ∈ palette_sizes q ∧
      max 16 (base_colors q / 2) ∈ palette_sizes q ∧
      max 16 (base_colors q / 4) ∈ palette_sizes q := by decide

/-- C1 (counterexample): on a grayscale ("L" mode, no alpha channel) image the
source quantizes with FASTOCTREE — because it first converts the working image
to RGBA — while the claim prescribes MEDIANCUT for an image without an alpha
channel, and the two searches return different bytes. -/
theorem compress_png_method_counterexample :
    Mode.hasAlphaBand Mode.L = false
    ∧ simpleOps.mode (Mode.L, 5) = Mode.L
    ∧ compress_png simpleOps (Mode.L, 5) 75 ≠ compress_png_claimed simpleOps (Mode.L, 5) 75 := by
  decide

/-- C1 (amended): for every quality in 20..95, `_compress_png` builds the
palette-size set {colors, max(16, colors/2), max(16, colors/4)} with
`colors = clamp(32 + (quality-20)/75*224, 32, 256)`, deduplicated and ordered
strictly descending; its result is one of the candidates (the lossless
re-encode or one quantized encoding per palette size) and is no longer than
any of them — in particular no longer than the lossless re-encode; and each
quantized candidate uses MEDIANCUT (on the RGB conversion) exactly when the
image's mode is RGB, and FASTOCTREE on the working image otherwise. -/
theorem compress_png_spec {Img2 : Type} (ops2 : PILOps Img2) (img : Img2)
    (quality : Nat) (h1 : 20 ≤ quality) (h2 : quality ≤ 95) :
    (palette_sizes quality).Pairwise (· > ·)
    ∧ (∀ n ∈ palette_sizes quality,
        n = base_colors quality ∨ n = max 16 (base_colors quality / 2) ∨
          n = max 16 (base_colors quality / 4))
    ∧ base_colors quality ∈ palette_sizes quality
    ∧ max 16 (base_colors quality / 2) ∈ palette_sizes quality
    ∧ max 16 (base_colors quality / 4) ∈ palette_sizes quality
    ∧ (compress_png ops2 img quality = save_png_bytes ops2 img ∨
        compress_png ops2 img quality ∈ (palette_sizes quality).map (png_candidate ops2 img))
    ∧ (∀ c, (c = save_png_bytes ops2 img ∨
          c ∈ (palette_sizes quality).map (png_candidate ops2 img)) →
        (compress_png ops2 img quality).length ≤ c.length)
    ∧ (compress_png ops2 img quality).length ≤ (save_png_bytes ops2 img).length
    ∧ (∀ colors, png_candidate ops2 img colors =
        if ops2.mode img = Mode.RGB then
          save_png_bytes ops2
            (ops2.quantize (ops2.convertMode img Mode.RGB) colors QMethod.MEDIANCUT Dither.NONE)
        else
          save_png_bytes ops2
            (ops2.quantize (png_work ops2 img) colors QMethod.FASTOCTREE Dither.NONE)) := by
  obtain ⟨p1, p2, p3, p4, p5⟩ := palette_sizes_facts quality (by omega) h1
  refine ⟨p1, p2, p3, p4, p5, minByLen_eq_or_mem _ _, minByLen_le _ _,
    minByLen_le _ _ _ (Or.inl rfl), ?_⟩
  intro colors
  unfold png_candidate png_work
  cases hm : ops2.mode img with
  | RGB => simp [hm, Mode.hasAlphaBand]
  | RGBA => simp [hm, Mode.hasAlphaBand]
  | L => simp [hm, ops2.mode_convertMode, Mode.hasAlphaBand]
  | LA => simp [hm, ops2.mode_convertMode, Mode.hasAlphaBand]
  | P => simp [hm, ops2.mode_convertMode, Mode.hasAlphaBand]
  | other => simp [hm, ops2.mode_convertMode, Mode.hasAlphaBand]

/-- C1 (witness): the search result on a concrete image at quality 75 is no
longer than the lossless re-encode. -/
theorem compress_png_spec_witness :
    (compress_png simpleOps (Mode.RGB, 5) 75).length ≤
      (save_png_bytes simpleOps (Mode.RGB, 5)).length :=
  (compress_png_spec simpleOps (Mode.RGB, 5) 75 (by decide) (by decide)).2.2.2.2.2.2.2.1

/-- C5 (counterexample): a source with an uppercase declared content type
"APPLICATION/PDF" and a non-PDF extension is classified as PDF by the code —
and a "pdf" target is then rejected — although the claim's condition
(extension ".pdf" case-insensitively, or content type equal to
"application/pdf") does not hold for it. -/
theorem is_pdf_source_counterexample :
    is_pdf_source "x.txt" (some "APPLICATION/PDF") = true
    ∧ ¬(asciiLower (pathSuffix "x.txt") = ".pdf")
    ∧ ¬((some "APPLICATION/PDF" : Option String).getD "" = "application/pdf")
    ∧ convert simpleOps "x.txt" (some "APPLICATION/PDF") "pdf" [] =
        ConvertResult.pdfToPdfRejected := by decide

/-- C5 (amended): a source is classified as PDF exactly when its lowercased
filename extension is ".pdf" or its lowercased declared content type is
"application/pdf"; and every convert request classified as PDF with target
"pdf" is rejected without producing an artifact. -/
theorem is_pdf_source_classification (filename : String) (ct : Option String) :
    (is_pdf_source filename ct = true ↔
      (asciiLower (pathSuffix (sourceNameOr filename "converted")) = ".pdf" ∨
        asciiLower (ct.getD "") = "application/pdf"))
    ∧ (∀ {Img2 : Type} (ops2 : PILOps Img2) (source_bytes : List Nat),
        is_pdf_source filename ct = true →
          convert ops2 filename ct "pdf" source_bytes = ConvertResult.pdfToPdfRejected) := by
  constructor
  · simp [is_pdf_source, pdfClass]
  · intro Img2 ops2 source_bytes h
    simp [convert, h]

/-- C5 (witness): a concrete PDF-classified request with target "pdf" is rejected. -/
theorem is_pdf_source_classification_witness :
    is_pdf_source "a.pdf" none = true
    ∧ convert simpleOps "a.pdf" none "pdf" [] = ConvertResult.pdfToPdfRejected :=
  ⟨by decide, (is_pdf_source_classification "a.pdf" none).2 simpleOps [] (by decide)⟩

/-- C6 (counterexample): a file named "A.PNG" with no declared content type is
outside the claim's literal allow-list (its extension ".PNG" is not one of the
listed suffixes), yet compression proceeds rather than failing with the
unsupported-source error, because the code lowercases the suffix first. -/
theorem compress_allowlist_counterexample :
    pathSuffix "A.PNG" ∉ SUPPORTED_COMPRESSION_SUFFIXES
    ∧ ((none : Option String).getD "") ∉ SUPPORTED_COMPRESSION_CONTENT_TYPES
    ∧ compress simpleOps "A.PNG" none 75 [0] ≠ CompressResult.unsupported := by decide

/-- C6 (amended): a compress request fails with the unsupported-source error
exactly when the lowercased filename suffix is outside the suffix allow-list
and the lowercased declared content type is outside the content-type
allow-list; since this holds for every codec instantiation, no decoding takes
place on the rejected path. -/
theorem compress_allowlist {Img2 : Type} (ops2 : PILOps Img2) (filename : String)
    (ct : Option String) (quality : Int) (source_bytes : List Nat) :
    compress ops2 filename ct quality source_bytes = CompressResult.unsupported ↔
      (asciiLower (pathSuffix (sourceNameOr filename "compressed")) ∉
          SUPPORTED_COMPRESSION_SUFFIXES ∧
        asciiLower (ct.getD "") ∉ SUPPORTED_COMPRESSION_CONTENT_TYPES) := by
  simp only [compress, compress_core]
  constructor
  · intro h
    by_cases hc : (asciiLower (pathSuffix (sourceNameOr filename "compressed")) ∉
        SUPPORTED_COMPRESSION_SUFFIXES ∧
      asciiLower (ct.getD "") ∉ SUPPORTED_COMPRESSION_CONTENT_TYPES)
    · exact hc
    · exfalso
      rw [if_neg hc] at h
      split at h
      · split at h
        · simp at h
        · split at h <;> simp at h
      · split at h
        · simp at h
        · split at h <;> simp at h
  · intro hc
    rw [if_pos hc]

/-- C4: a PDF source converted to a raster target either returns the single
encoded page directly (one page), or a deflate ZIP with one entry per page in
page order named with the zero-padded 1-based page index (more than one page);
the entry count equals the page count. -/
theorem convert_pdf_multipage_packaging {Img2 : Type} (ops2 : PILOps Img2)
    (filename : String) (ct : Option String) (output : String)
    (source_bytes : List Nat) (pages : List Img2)
    (hpdf : is_pdf_source filename ct = true)
    (hout : output = "png" ∨ output = "jpg")
    (hrender : render_pdf_pages ops2 source_bytes ⟨2, 1⟩ = some pages) :
    (∀ pg, pages = [pg] → convert ops2 filename ct output source_bytes =
        ConvertResult.ok (pathStem (sourceNameOr filename "converted") ++ "." ++ rasterExt output)
          (ArtifactData.file (rasterBytes ops2 pg output)) (rasterMime output)
          (rasterLabel output))
    ∧ (2 ≤ pages.length → convert ops2 filename ct output source_bytes =
        ConvertResult.ok
          (pathStem (sourceNameOr filename "converted") ++ "_" ++ output ++ "_pages.zip")
          (ArtifactData.zipDeflated ((pages.enumFrom 1).map (fun ip =>
            (pathStem (sourceNameOr filename "converted") ++ "_page_" ++
              padLeftZeros 3 (Nat.repr ip.1) ++ "." ++ rasterExt output,
             rasterBytes ops2 ip.2 output))))
          "application/zip" "ZIP")
    ∧ ((pages.enumFrom 1).map (fun ip =>
        (pathStem (sourceNameOr filename "converted") ++ "_page_" ++
          padLeftZeros 3 (Nat.repr ip.1) ++ "." ++ rasterExt output,
         rasterBytes ops2 ip.2 output))).length = pages.length := by
  have hnp : ¬(output = "pdf") := by rcases hout with h | h <;> simp [h]
  refine ⟨?_, ?_, ?_⟩
  · intro pg hpg
    subst hpg
    simp only [convert, hpdf, if_true, if_neg hnp, hrender]
    rw [encode_image_raster ops2 pg output hout]
  · intro hlen
    rcases pages with _ | ⟨a, _ | ⟨b, rest⟩⟩
    · simp at hlen
    · simp at hlen
    · simp only [convert, hpdf, if_true, if_neg hnp, hrender]
      rw [mapM_eq_some_map _ _ _ (fun ip _ => by
        rw [encode_image_raster ops2 ip.2 output hout]; rfl)]
  · simp [List.length_map]

/-- C4 (witness): a concrete three-page PDF converted to "png" yields the
deflate ZIP with the three page entries in order. -/
theorem convert_pdf_multipage_packaging_witness :
    2 ≤ ([(Mode.RGB, 1), (Mode.RGB, 2), (Mode.RGB, 3)] : List SImg).length
    ∧ convert simpleOps "doc.pdf" none "png" [0] =
        ConvertResult.ok
          (pathStem (sourceNameOr "doc.pdf" "converted") ++ "_" ++ "png" ++ "_pages.zip")
          (ArtifactData.zipDeflated
            ((([(Mode.RGB, 1), (Mode.RGB, 2), (Mode.RGB, 3)] : List SImg).enumFrom 1).map
              (fun ip =>
                (pathStem (sourceNameOr "doc.pdf" "converted") ++ "_page_" ++
                  padLeftZeros 3 (Nat.repr ip.1) ++ "." ++ rasterExt "png",
                 rasterBytes simpleOps ip.2 "png"))))
          "application/zip" "ZIP" :=
  ⟨by decide,
    (convert_pdf_multipage_packaging simpleOps "doc.pdf" none "png" [0]
      [(Mode.RGB, 1), (Mode.RGB, 2), (Mode.RGB, 3)] (by decide) (Or.inl rfl) rfl).2.1
      (by decide)⟩

/-- C2: for a known category and a defined unit symbol, the conversion returns
exactly one row per unit of the category, in the category's declared order,
each row carrying the unit's name, symbol, and the formatted value
`(value * inputFactor) / unitFactor` — the input unit included, none omitted. -/
theorem unit_convert_table (category unit : String) (us : List UnitDef)
    (hcat : dictGet UNIT_DEFINITIONS (stripWs (asciiLower category)) = some us)
    (hne : us ≠ [])
    (nm : String) (f : Frac) (hsym : symLookup us (stripWs unit) = some (nm, f))
    (value : Frac) :
    unit_convert category unit value =
      UnitConvertResult.ok
        (us.map (fun u => (u.1, u.2.1, format_number ((value.mul f).div u.2.2)))) := by
  cases us with
  | nil => exact absurd rfl hne
  | cons u0 rest =>
    unfold unit_convert unit_convert_core
    rw [hcat]
    simp only [List.isEmpty_cons, Bool.false_eq_true, if_false]
    rw [hsym]

/-- C2 (witness): the time table for 2 minutes, with base value 2 * 60. -/
theorem unit_convert_table_witness :
    dictGet UNIT_DEFINITIONS (stripWs (asciiLower "time")) = some time_units
    ∧ unit_convert "time" "min" ⟨2, 1⟩ =
        UnitConvertResult.ok
          (time_units.map (fun u =>
            (u.1, u.2.1, format_number (((⟨2, 1⟩ : Frac).mul ⟨60, 1⟩).div u.2.2)))) :=
  ⟨rfl,
    unit_convert_table "time" "min" time_units rfl (by decide) "minute" ⟨60, 1⟩ rfl ⟨2, 1⟩⟩

/-- C3: the formatter renders an exact zero as "0"; a nonzero value whose
magnitude is at least 1e6 or below 1e-4 in normalized scientific notation with
8 fractional digits; and any other nonzero value in fixed-point with 8
fractional digits, trailing zeros and a trailing dot stripped — in particular
120 renders as "120" and 1/30 as "0.03333333".  Values are the exact rationals
denoted by the program's floats. -/
theorem format_number_branches (x : Frac) (hpos : 0 < x.den) :
    (∀ z : Frac, z.num = 0 → format_number z = "0")
    ∧ (x.num ≠ 0 → ((1000000 : ℚ) ≤ |x.val| ∨ |x.val| < 1 / 10000) →
        format_number x = sci8 (decide (x.num < 0)) x.num.natAbs x.den.natAbs)
    ∧ (x.num ≠ 0 → ¬((1000000 : ℚ) ≤ |x.val| ∨ |x.val| < 1 / 10000) →
        format_number x = stripTrailing (fixed8 (decide (x.num < 0)) x.num.natAbs x.den.natAbs))
    ∧ format_number ⟨120, 1⟩ = "120"
    ∧ format_number ⟨1, 30⟩ = "0.03333333" := by
  have hden : ¬(x.den < 0) := by omega
  have hdna : (0 : ℚ) < (x.den.natAbs : ℚ) := by
    have : x.den.natAbs ≠ 0 := Int.natAbs_ne_zero.mpr (by omega)
    exact_mod_cast Nat.pos_of_ne_zero this
  have habs : |x.val| = (x.num.natAbs : ℚ) / (x.den.natAbs : ℚ) := by
    unfold Frac.val
    rw [abs_div, Int.cast_natAbs, Int.cast_natAbs]
    push_cast
    ring
  have hcond1 : (1000000 : ℚ) ≤ |x.val| ↔ 1000000 * x.den.natAbs ≤ x.num.natAbs := by
    rw [habs, le_div_iff₀ hdna]
    exact_mod_cast Iff.rfl
  have hcond2 : |x.val| < 1 / 10000 ↔ 10000 * x.num.natAbs < x.den.natAbs := by
    rw [habs, div_lt_div_iff₀ hdna (by norm_num : (0 : ℚ) < 10000), one_mul,
      mul_comm ((x.num.natAbs : ℚ)) 10000]
    exact_mod_cast Iff.rfl
  refine ⟨?_, ?_, ?_, by decide, by decide⟩
  · intro z hz
    simp [format_number, hz]
  · intro hnz hb
    have hib : 1000000 * x.den.natAbs ≤ x.num.natAbs ∨ 10000 * x.num.natAbs < x.den.natAbs := by
      rcases hb with h | h
      · exact Or.inl (hcond1.mp h)
      · exact Or.inr (hcond2.mp h)
    simp only [format_number, if_neg hden, if_neg hnz, if_pos hib]
  · intro hnz hb
    have hib : ¬(1000000 * x.den.natAbs ≤ x.num.natAbs ∨ 10000 * x.num.natAbs < x.den.natAbs) := by
      intro h
      rcases h with h | h
      · exact hb (Or.inl (hcond1.mpr h))
      · exact hb (Or.inr (hcond2.mpr h))
    simp only [format_number, if_neg hden, if_neg hnz, if_neg hib]

/-- C3 (witness): 1e7 falls in the scientific branch. -/
theorem format_number_branches_witness :
    ((⟨10000000, 1⟩ : Frac).num ≠ 0)
    ∧ format_number ⟨10000000, 1⟩ =
        sci8 (decide ((⟨10000000, 1⟩ : Frac).num < 0))
          (⟨10000000, 1⟩ : Frac).num.natAbs (⟨10000000, 1⟩ : Frac).den.natAbs :=
  ⟨by decide,
    (format_number_branches ⟨10000000, 1⟩ (by decide)).2.1 (by decide)
      (Or.inl (by norm_num [Frac.val]))⟩

/-- C7: a download returns not-found exactly when the token is absent from the
table (equivalently, was never stored); a present token returns exactly the
stored (filename, bytes, MIME type) triple, also right after it is stored;
and downloading leaves the table unchanged, so repetition gives the same
result. -/
theorem download_lookup (tbl : DownloadTable) (token : String) :
    (download tbl token).2 = tbl
    ∧ ((download tbl token).1 = DownloadResult.notFound ↔ cacheGet tbl token = none)
    ∧ (cacheGet tbl token = none ↔ ∀ e : DownloadEntry, (token, e) ∉ tbl)
    ∧ (∀ fn c m, cacheGet tbl token = some (fn, c, m) →
        (download tbl token).1 = DownloadResult.found fn c m)
    ∧ (∀ e : DownloadEntry, (download (cacheStore token e tbl) token).1 =
        DownloadResult.found e.1 e.2.1 e.2.2)
    ∧ download ((download tbl token).2) token = download tbl token := by
  refine ⟨rfl, ?_, cacheGet_eq_none_iff tbl token, ?_, ?_, rfl⟩
  · unfold download
    cases h : cacheGet tbl token <;> simp
  · intro fn c m h
    unfold download
    rw [h]
  · intro e
    unfold download cacheStore cacheGet
    simp

/-- C7 (witness): a stored token downloads to exactly its stored triple. -/
theorem download_lookup_witness :
    cacheGet [("t", ("f.png", [1, 2], "image/png"))] "t" = some ("f.png", [1, 2], "image/png")
    ∧ (download [("t", ("f.png", [1, 2], "image/png"))] "t").1 =
        DownloadResult.found "f.png" [1, 2] "image/png" :=
  ⟨by decide,
    (download_lookup [("t", ("f.png", [1, 2], "image/png"))] "t").2.2.2.1
      "f.png" [1, 2] "image/png" (by decide)⟩

/-- C8: for every unit factor reachable from the category table, converting a
value to the base unit and back (multiply then divide by the factor) returns
exactly the original value — in particular within a relative tolerance of
1e-9 — so the table row for the input unit shows the input value. -/
theorem unit_roundtrip (cat : String) (us : List UnitDef)
    (hcat : dictGet UNIT_DEFINITIONS cat = some us)
    (sym nm : String) (f : Frac) (hsym : symLookup us sym = some (nm, f))
    (v : Frac) (hv : v.den ≠ 0) :
    ((v.mul f).div f).val = v.val
    ∧ |((v.mul f).div f).val - v.val| ≤ (1 / 1000000000 : ℚ) * |v.val| := by
  obtain ⟨t, ht, htf⟩ := symLookup_factor us sym nm f hsym
  obtain ⟨p, hp, hpv⟩ := dictGet_mem UNIT_DEFINITIONS cat us hcat
  have hnz := unit_factors_nonzero p hp t (by rw [hpv]; exact ht)
  have hfn : ((f.num : ℚ)) ≠ 0 := Int.cast_ne_zero.mpr (htf ▸ hnz.1)
  have hfd : ((f.den : ℚ)) ≠ 0 := Int.cast_ne_zero.mpr (htf ▸ hnz.2)
  have hvd : ((v.den : ℚ)) ≠ 0 := Int.cast_ne_zero.mpr hv
  have key : ((v.mul f).div f).val = v.val := by
    unfold Frac.val Frac.mul Frac.div
    push_cast
    field_simp
    ring
  refine ⟨key, ?_⟩
  rw [key, sub_self, abs_zero]
  positivity

/-- C8 (witness): 2 minutes to base seconds and back is exactly 2. -/
theorem unit_roundtrip_witness :
    symLookup time_units "min" = some ("minute", ⟨60, 1⟩)
    ∧ (((⟨2, 1⟩ : Frac).mul ⟨60, 1⟩).div ⟨60, 1⟩).val = (⟨2, 1⟩ : Frac).val :=
  ⟨by decide,
    (unit_roundtrip "time" time_units rfl "min" "minute" ⟨60, 1⟩ rfl ⟨2, 1⟩ (by decide)).1⟩

/-- C9: the compress handler clamps the quality form field to [20, 95] before
any use, so any quality at most 20 behaves exactly as 20, any quality at least
95 behaves exactly as 95, and an out-of-range quality never changes the
outcome relative to its clamped value. -/
theorem compress_quality_clamped {Img2 : Type} (ops2 : PILOps Img2) (filename : String)
    (ct : Option String) (source_bytes : List Nat) (quality : Int) :
    compress ops2 filename ct quality source_bytes =
        compress ops2 filename ct (max 20 (min 95 quality)) source_bytes
    ∧ (quality ≤ 20 → compress ops2 filename ct quality source_bytes =
        compress ops2 filename ct 20 source_bytes)
    ∧ (95 ≤ quality → compress ops2 filename ct quality source_bytes =
        compress ops2 filename ct 95 source_bytes) := by
  refine ⟨?_, fun h => ?_, fun h => ?_⟩ <;> (unfold compress; congr 1; omega)

/-- C9 (witness): quality -5 compresses exactly as quality 20. -/
theorem compress_quality_clamped_witness :
    ((-5 : Int) ≤ 20)
    ∧ compress simpleOps "a.png" none (-5) [] = compress simpleOps "a.png" none 20 [] :=
  ⟨by decide, (compress_quality_clamped simpleOps "a.png" none [] (-5)).2.1 (by decide)⟩

/-- C10: lookup normalization is asymmetric — the category is lowercased and
stripped while the unit symbol is only stripped and matched case-sensitively:
" TIME " finds the time category, in powers_of_ten the symbols "m" and "M"
select milli and mega respectively, and the wrong-case symbol "g" (for giga's
"G") fails with the unknown-unit error. -/
theorem unit_convert_normalization :
    (∀ (category unit : String) (v : Frac),
        unit_convert category unit v =
          unit_convert_core (stripWs (asciiLower category)) (stripWs unit) v)
    ∧ unit_convert " TIME " "min" ⟨2, 1⟩ = unit_convert "time" "min" ⟨2, 1⟩
    ∧ symLookup powers_of_ten_units "m" = some ("milli", ⟨1, 1000⟩)
    ∧ symLookup powers_of_ten_units "M" = some ("mega", ⟨1000000, 1⟩)
    ∧ unit_convert "powers_of_ten" " m " ⟨1, 1⟩ = unit_convert "powers_of_ten" "m" ⟨1, 1⟩
    ∧ unit_convert "powers_of_ten" "g" ⟨1, 1⟩ = UnitConvertResult.unknownUnit :=
  ⟨fun _ _ _ => rfl, rfl, by decide, by decide, rfl, by decide⟩
